import Mathlib

/-!
Verification of the HPS (Hierarchical Poincaré–Steklov) solver core.

This file gives a shallow embedding, in Lean 4, of the parts of the
`hahps`/`hps` Python code base that the specification claims talk about:

* the 2D DtN leaf local solve (`get_DtN` in
  `src/hahps/local_solve/_uniform_2D_DtN.py`),
* the coefficient gathering and leaf-operator assembly
  (`_gather_coeffs_2D`, `assemble_diff_operator` in the same file),
* the 2D ItI leaf local solve (`get_ItI` and
  `local_solve_stage_uniform_2D_ItI` in
  `src/hahps/local_solve/_uniform_2D_ItI.py`),
* the ItI upward pass (`up_pass_uniform_2D_ItI` and
  `assemble_boundary_data` in `src/hahps/up_pass/_uniform_2D_ItI.py`),
* the dispatch logic of `solve` (`src/hahps/_solve.py`),
* the chunking arithmetic of the fused 2D controller
  (`hps/src/methods/fused_methods.py`).

Modelling conventions.  Dense float64/complex128 arrays are modelled over
the exact field `ℚ`: every claim treated here is about the *algebraic*
structure of the computations (which blocks are read, which formulas are
applied, how indices are permuted), not about rounding, so an exact field
is the faithful abstraction.  Two embedding styles are used:

* `Matrix` over `Fin nb ⊕ Fin ni` for the leaf solves, where the node set
  splits into boundary (`Sum.inl`) and interior (`Sum.inr`) Chebyshev
  nodes, mirroring the `[:n_cheby_bdry]` / `[n_cheby_bdry:]` slicing;
* plain functions `ℕ → ℚ` (with explicit lengths) for the slicing-heavy
  `assemble_boundary_data`, mirroring `jnp` fancy indexing directly.

Shape errors (rank mismatches) are modelled by a small explicit
shape-level semantics where a claim depends on them.
-/

/-! ### A tiny functional vector/matrix layer (mirrors `jnp` slicing code) -/

/-- Vectors as total functions on `ℕ`; entries outside the declared length
of the modelled array are junk and never read. -/
abbrev Vec : Type := ℕ → ℚ

/-- Matrices as total functions on `ℕ × ℕ`, same convention as `Vec`. -/
abbrev MatF : Type := ℕ → ℕ → ℚ

/-- The all-zeros coefficient vector (models a `jnp.zeros` coefficient array). -/
def zeroVec : Vec := fun _ => 0

/-- Matrix–vector product of an `n × n` matrix against a length-`n` vector
(`M @ v` in the Python code). -/
def matVec (n : ℕ) (M : MatF) (v : Vec) : Vec :=
  fun a => ∑ b ∈ Finset.range n, M a b * v b

/-- The `n × n` identity matrix in the functional layer. -/
def idMatF : MatF := fun a b => if a = b then 1 else 0

/-- The all-zeros matrix in the functional layer. -/
def zeroMatF : MatF := fun _ _ => 0

/-! ### Coefficient gathering and leaf-operator assembly
(`_gather_coeffs_2D`, `_add`, `add_or_not`, `assemble_diff_operator` in
`src/hahps/local_solve/_uniform_2D_DtN.py`, lines 111–221).

A coefficient array that was passed as `None` is an absent `Option`.
`gather_coeffs_2D` returns the list of present coefficient vectors
(`coeffs_gathered`) and the boolean mask (`which_coeffs`).  The claims are
stated per leaf: a `Vec` is one leaf's coefficient vector of length `p²`. -/

/-- Model of `_gather_coeffs_2D`: keeps the non-`None` coefficient arrays in
order and records which of the inputs were present. -/
def gather_coeffs_2D (lst : List (Option Vec)) : List Vec × List Bool :=
  (lst.filterMap id, lst.map Option.isSome)

/-- Model of `_add`'s update `out + jnp.einsum("ab,a->ab", diff_op, coeff)`:
row-wise scaling of the differential operator by the coefficient vector. -/
def scale_rows (coeff : Vec) (op : MatF) : MatF :=
  fun a b => coeff a * op a b

/-- Model of the `jax.lax.fori_loop` over `add_or_not` inside
`assemble_diff_operator`: walk the `which_coeffs` mask and the stacked
differential operators together; on a `true` entry add the row-scaled
operator using the next gathered coefficient vector (`coeffs_arr[counter]`,
here `cs.headI`) and advance the counter (here `cs.tail`); on `false`
leave the accumulator unchanged. -/
def add_or_not_loop : List Bool → List MatF → List Vec → MatF → MatF
  | [], _, _, out => out
  | _ :: _, [], _, out => out
  | w :: ws, op :: ops, cs, out =>
    if w then
      add_or_not_loop ws ops cs.tail (fun a b => out a b + scale_rows cs.headI op a b)
    else
      add_or_not_loop ws ops cs out

/-- Model of `assemble_diff_operator`: fold the loop starting from the zero
accumulator (`jnp.zeros_like(diff_ops[0])`). -/
def assemble_diff_operator (cs : List Vec) (ws : List Bool) (ops : List MatF) : MatF :=
  add_or_not_loop ws ops cs (fun _ _ => 0)

/-- Composition used by the local solve stage: gather the optional
coefficient arrays, then assemble the leaf differential operator. -/
def assemble_from_coeff_options (lst : List (Option Vec)) (ops : List MatF) : MatF :=
  assemble_diff_operator (gather_coeffs_2D lst).1 (gather_coeffs_2D lst).2 ops

/-! ### The ItI upward-pass boundary-data assembly
(`assemble_boundary_data` in `src/hahps/up_pass/_uniform_2D_ItI.py`,
lines 88–162).  `h_in c` is child `c`'s outgoing impedance vector of
length `4*nside`; flips (`jnp.flipud`) become reversed index arithmetic. -/

/-- Concatenation of eight length-`ns` segments (`jnp.concatenate` of eight
pieces). -/
def concat8 (ns : ℕ) (v0 v1 v2 v3 v4 v5 v6 v7 : Vec) : Vec := fun a =>
  if a < ns then v0 a
  else if a < 2*ns then v1 (a - ns)
  else if a < 3*ns then v2 (a - 2*ns)
  else if a < 4*ns then v3 (a - 3*ns)
  else if a < 5*ns then v4 (a - 4*ns)
  else if a < 6*ns then v5 (a - 5*ns)
  else if a < 7*ns then v6 (a - 6*ns)
  else v7 (a - 7*ns)

/-- Concatenation of four length-`m` segments. -/
def concat4 (m : ℕ) (v0 v1 v2 v3 : Vec) : Vec := fun a =>
  if a < m then v0 a
  else if a < 2*m then v1 (a - m)
  else if a < 3*m then v2 (a - 2*m)
  else v3 (a - 3*m)

/-- The interior-interface slice order of `assemble_boundary_data`:
`jnp.concatenate([h_b_5, h_d_8, h_b_6, h_d_7, h_a_5, h_c_6, h_c_7, h_a_8])`
with `h_b_5 = flipud(h_b[3ns:4ns])`, `h_d_8 = h_d[:ns]`,
`h_b_6 = h_b[2ns:3ns]`, `h_d_7 = flipud(h_d[ns:2ns])`,
`h_a_5 = h_a[ns:2ns]`, `h_c_6 = flipud(h_c[:ns])`, `h_c_7 = h_c[3ns:4ns]`,
`h_a_8 = flipud(h_a[2ns:3ns])`, where `h_a = h_in 0`, `h_b = h_in 1`,
`h_c = h_in 2`, `h_d = h_in 3`. -/
def h_int_child (ns : ℕ) (h_in : ℕ → Vec) : Vec :=
  concat8 ns
    (fun j => h_in 1 (4*ns - 1 - j))
    (fun j => h_in 3 j)
    (fun j => h_in 1 (2*ns + j))
    (fun j => h_in 3 (2*ns - 1 - j))
    (fun j => h_in 0 (ns + j))
    (fun j => h_in 2 (ns - 1 - j))
    (fun j => h_in 2 (3*ns + j))
    (fun j => h_in 0 (3*ns - 1 - j))

/-- The exterior slice order of `assemble_boundary_data`:
`jnp.concatenate([h_a_1, h_b_2, h_c_3, h_d_4])` with
`h_a_1 = concatenate([h_a[-ns:], h_a[:ns]])`, `h_b_2 = h_b[:2ns]`,
`h_c_3 = h_c[ns:3ns]`, `h_d_4 = h_d[2ns:4ns]`. -/
def h_ext_child (ns : ℕ) (h_in : ℕ → Vec) : Vec :=
  concat4 (2*ns)
    (fun j => if j < ns then h_in 0 (3*ns + j) else h_in 0 (j - ns))
    (fun j => h_in 1 j)
    (fun j => h_in 2 (ns + j))
    (fun j => h_in 3 (2*ns + j))

/-- The reindexing vector `r` of `assemble_boundary_data` (lines 142–153):
eight concatenated `jnp.arange` segments reordering
`a_5, a_8, c_6, c_7, b_5, b_6, d_7, d_8` into
`a_5, b_5, b_6, c_6, c_7, d_7, d_8, a_8`. -/
def rList (ns : ℕ) : List ℕ :=
  List.range' 0 ns ++ List.range' (4*ns) ns ++ List.range' (5*ns) ns ++
  List.range' (2*ns) ns ++ List.range' (3*ns) ns ++ List.range' (6*ns) ns ++
  List.range' (7*ns) ns ++ List.range' ns ns

/-- Model of `assemble_boundary_data`: given the four children's particular
outgoing impedance vectors (length `4*ns` each) and the cached merge
matrices `D_inv`, `BD_inv` (both `8*ns × 8*ns`), return the pair
`(h, g_tilde)`:
`g_tilde = (-1 * D_inv @ h_int_child)[r]` and
`h = jnp.roll(h_ext_child - BD_inv @ h_ext_child, -ns)`. -/
def assemble_boundary_data (ns : ℕ) (h_in : ℕ → Vec) (D_inv BD_inv : MatF) :
    Vec × Vec :=
  let hic := h_int_child ns h_in
  let hec := h_ext_child ns h_in
  let g_tilde : Vec := fun a => -(matVec (8*ns) D_inv hic a)
  let g_tilde_r : Vec := fun a => g_tilde ((rList ns).getD a 0)
  let h : Vec := fun a => hec a - matVec (8*ns) BD_inv hec a
  let h_roll : Vec := fun a => h ((a + ns) % (8*ns))
  (h_roll, g_tilde_r)

/-- The parent particular vector that claim C3 asserts
`assemble_boundary_data` returns: the exterior data corrected by `BD_inv`
applied to the *interior-interface* data, then rolled into canonical
order. -/
def claimed_h_C3 (ns : ℕ) (h_in : ℕ → Vec) (BD_inv : MatF) : Vec :=
  fun a =>
    h_ext_child ns h_in ((a + ns) % (8*ns)) -
      matVec (8*ns) BD_inv (h_int_child ns h_in) ((a + ns) % (8*ns))

/-- Concrete input for the C3 counterexample: child `a` carries a single 1
in its interior-facing segment `h_a_5`; all other children are zero. -/
def c3_h_in : ℕ → Vec := fun c j =>
  if c = 0 then (if j = 1 then 1 else 0) else 0

/-! ### The 2D DtN leaf solve
(`get_DtN` in `src/hahps/local_solve/_uniform_2D_DtN.py`, lines 232–273).

The `p²` Chebyshev nodes of a leaf are split into the first
`n_cheby_bdry` boundary nodes and the remaining interior nodes; we index
them by `Fin nb ⊕ Fin ni` with `Sum.inl` boundary and `Sum.inr` interior,
so the Python block slices become `Matrix.toBlocks`. -/

/-- Chebyshev node index set of one leaf: boundary nodes ⊕ interior nodes. -/
abbrev CN (nb ni : ℕ) : Type := Fin nb ⊕ Fin ni

/-- Model of `jnp.linalg.inv` on an exact field: `(det A)⁻¹ • adjugate A`.
For invertible `A` this is the two-sided inverse (proved below); the code
only ever reaches it when the block is invertible. -/
def matInv {n : Type} [Fintype n] [DecidableEq n] (A : Matrix n n ℚ) :
    Matrix n n ℚ :=
  (A.det)⁻¹ • A.adjugate

/-- Result record of `get_DtN`: the four returned arrays `Y, T, v, h`. -/
structure DtNResult (nb ni g : ℕ) where
  Y : Matrix (CN nb ni) (Fin g) ℚ
  T : Matrix (Fin g) (Fin g) ℚ
  v : CN nb ni → ℚ
  h : Fin g → ℚ

/-- Model of `get_DtN`.  `A_ii = diff_operator[n:, n:]`,
`A_ie = diff_operator[n:, :n]`; `L_2` is zero-initialised then its first
`nb` rows are set to the identity and its remaining rows to
`-1 * A_ii_inv @ A_ie` (so `L_2 = fromRows 1 soln_operator`); `Y = L_2 @ P`,
`T = Q @ Y`; `v` is zero-initialised then its interior entries are set to
`A_ii_inv @ source_term[n:]`; `h = Q @ v`. -/
def get_DtN (nb ni g : ℕ) (source : CN nb ni → ℚ)
    (A : Matrix (CN nb ni) (CN nb ni) ℚ)
    (Q : Matrix (Fin g) (CN nb ni) ℚ)
    (P : Matrix (Fin nb) (Fin g) ℚ) : DtNResult nb ni g :=
  let A_ii := A.toBlocks₂₂
  let A_ii_inv := matInv A_ii
  let A_ie := A.toBlocks₂₁
  let soln_operator := -(A_ii_inv * A_ie)
  let L_2 := Matrix.fromRows (1 : Matrix (Fin nb) (Fin nb) ℚ) soln_operator
  let Y := L_2 * P
  let T := Q * Y
  let v : CN nb ni → ℚ :=
    Sum.elim (fun _ => 0) (A_ii_inv.mulVec (fun j => source (Sum.inr j)))
  let h := Q.mulVec v
  ⟨Y, T, v, h⟩

/-! ### The 2D ItI leaf solve
(`get_ItI` and `local_solve_stage_uniform_2D_ItI` in
`src/hahps/local_solve/_uniform_2D_ItI.py`).

The trailing multi-source axis of `source_term`, `v` and `h` is modelled
by an `ℕ`-indexed column type (column `s` is source number `s`), so the
`[..., 0]` slice of the stage is literally "column 0". -/

/-- Result record of `get_ItI`: the returned arrays `T, Y, h, v`, where `h`
and `v` carry the multi-source column axis. -/
structure ItIResult (nb ni g : ℕ) where
  T : Matrix (Fin g) (Fin g) ℚ
  Y : Matrix (CN nb ni) (Fin g) ℚ
  h : Matrix (Fin g) ℕ ℚ
  v : Matrix (CN nb ni) ℕ ℚ

/-- Model of `get_ItI`: `B` has the incoming-impedance rows `G` on top and
the interior rows of `A` below; `B_inv = inv(B)`;
`Phi = B_inv[:, n_cheby_bdry:]`; `Y = B_inv[:, :n_cheby_bdry] @ P`;
`v = Phi @ source_term[n_cheby_bdry:]`; `h = QH @ v`; `T = QH @ Y`. -/
def get_ItI (nb ni g : ℕ) (A : Matrix (CN nb ni) (CN nb ni) ℚ)
    (source : Matrix (CN nb ni) ℕ ℚ)
    (P : Matrix (Fin nb) (Fin g) ℚ)
    (QH : Matrix (Fin g) (CN nb ni) ℚ)
    (G : Matrix (Fin nb) (CN nb ni) ℚ) : ItIResult nb ni g :=
  let B : Matrix (CN nb ni) (CN nb ni) ℚ :=
    Matrix.fromRows G (A.submatrix Sum.inr id)
  let B_inv := matInv B
  let Phi := B_inv.submatrix id Sum.inr
  let Y := (B_inv.submatrix id Sum.inl) * P
  let source_int := source.submatrix Sum.inr id
  let v := Phi * source_int
  let h := QH * v
  let T := QH * Y
  ⟨T, Y, h, v⟩

/-- Result record of `local_solve_stage_uniform_2D_ItI` (arrays indexed by
leaf): note `v` and `h` have lost their source axis. -/
structure ItIStageResult (nb ni g : ℕ) where
  Y : ℕ → Matrix (CN nb ni) (Fin g) ℚ
  T : ℕ → Matrix (Fin g) (Fin g) ℚ
  v : ℕ → CN nb ni → ℚ
  h : ℕ → Fin g → ℚ

/-- Model of `local_solve_stage_uniform_2D_ItI`: run `get_ItI` on every
leaf (the `vmap`), then return `Y`, `T` and the `[..., 0]` slices of `v`
and `h` ("the indexing on the last axis is to take away the multi-source
dimension"). -/
def local_solve_stage_uniform_2D_ItI (nb ni g : ℕ)
    (A : ℕ → Matrix (CN nb ni) (CN nb ni) ℚ)
    (source : ℕ → Matrix (CN nb ni) ℕ ℚ)
    (P : Matrix (Fin nb) (Fin g) ℚ)
    (QH : Matrix (Fin g) (CN nb ni) ℚ)
    (G : Matrix (Fin nb) (CN nb ni) ℚ) : ItIStageResult nb ni g :=
  { Y := fun l => (get_ItI nb ni g (A l) (source l) P QH G).Y
    T := fun l => (get_ItI nb ni g (A l) (source l) P QH G).T
    v := fun l x => (get_ItI nb ni g (A l) (source l) P QH G).v x 0
    h := fun l x => (get_ItI nb ni g (A l) (source l) P QH G).h x 0 }

/-! ### The `solve` dispatch (`src/hahps/_solve.py`, lines 48–91). -/

/-- The problem flags that `solve` consults: `pde_problem.domain.bool_2D`,
`pde_problem.domain.bool_uniform` and `pde_problem.use_ItI`. -/
structure SolveFlags where
  bool_2D : Bool
  bool_uniform : Bool
  use_ItI : Bool
deriving DecidableEq

/-- Which branch `solve` takes: the `ValueError` raise, the
`_up_then_down_pass` call, the `_adaptive_solve` call, or one of the three
uniform down-pass functions. -/
inductive SolveDispatch where
  | configError
  | upThenDown
  | adaptiveSolve
  | downPassUniform2DItI
  | downPassUniform2DDtN
  | downPassUniform3DDtN
deriving DecidableEq

/-- Model of `solve`'s branch selection: `if source is not None`, raise
`ValueError` when `not bool_2D or not use_ItI`, else call
`_up_then_down_pass`; otherwise dispatch on `bool_uniform`, `use_ItI` and
`bool_2D` exactly as lines 62–91 do. -/
def solve_dispatch (f : SolveFlags) (source_given : Bool) : SolveDispatch :=
  if source_given then
    if !f.bool_2D || !f.use_ItI then SolveDispatch.configError
    else SolveDispatch.upThenDown
  else if !f.bool_uniform then SolveDispatch.adaptiveSolve
  else if f.use_ItI then SolveDispatch.downPassUniform2DItI
  else if f.bool_2D then SolveDispatch.downPassUniform2DDtN
  else SolveDispatch.downPassUniform3DDtN

/-! ### The state effect of the ItI upward pass on the problem object
(`up_pass_uniform_2D_ItI`, `src/hahps/up_pass/_uniform_2D_ItI.py`,
lines 44–55).  The only assignment to `pde_problem` in the whole function
is `pde_problem.source = source` (line 51), executed after the
`expand_dims` of a 2-dimensional source and before the level loop;
`D_inv_lst` and `BD_inv_lst` are only read. -/

/-- A source array together with its rank: `rank2 f` is an
`(n_leaves, p²)` array, `rank3 nsrc f` an `(n_leaves, p², nsrc)` array. -/
inductive SourceArr (K : Type) where
  | rank2 : (ℕ → ℕ → K) → SourceArr K
  | rank3 : ℕ → (ℕ → ℕ → ℕ → K) → SourceArr K

/-- Number of axes of the modelled source array (`source.ndim`). -/
def SourceArr.ndim {K : Type} : SourceArr K → ℕ
  | .rank2 _ => 2
  | .rank3 _ _ => 3

/-- Model of `jnp.expand_dims(source, axis=-1)`: append a trailing
singleton source axis. -/
def SourceArr.expandDimsLast {K : Type} : SourceArr K → SourceArr K
  | .rank2 f => .rank3 1 (fun i j _ => f i j)
  | .rank3 n f => .rank3 n f

/-- The fields of a 2D uniform ItI `PDEProblem` that claim C8 talks about.
The merge-stage outputs (`S_lst`, `g_tilde_lst`, `D_inv_lst`,
`BD_inv_lst`) and the leaf operators (`Y`, `v`) are kept at an abstract
array type `α`: the claim is about which fields are written, not about
their contents. -/
structure PDEProblemState (K : Type) (α : Type) where
  source : SourceArr K
  S_lst : List α
  g_tilde_lst : List α
  D_inv_lst : List α
  BD_inv_lst : List α
  Y : α
  v : α

/-- Model of the mutation `up_pass_uniform_2D_ItI` performs on
`pde_problem`: the supplied source, expanded with a trailing singleton
axis when it is 2-dimensional (`bool_multi_source = source.ndim == 3`),
replaces the stored source; no other field is assigned anywhere in the
function. -/
def up_pass_store_source {K α : Type} (source : SourceArr K)
    (prob : PDEProblemState K α) : PDEProblemState K α :=
  { prob with
      source := if source.ndim = 3 then source else source.expandDimsLast }

/-! ### Shape-level semantics of the ItI upward pass
(`up_pass_uniform_2D_ItI`, lines 57–74).

`local_solve_stage_uniform_2D_ItI` returns `h` (and `v`) with the trailing
source axis removed by the `[..., 0]` slice (lines 113–116 of
`_uniform_2D_ItI.py`), so the stacked `h` has shape `(n_leaves, 4q)`.
The level loop of the upward pass then executes
`nnodes, nbdry, nsrc = h_in.shape`, which requires a rank-3 array;
on a rank-3 array it reshapes to `(nnodes//4, 4, nbdry, nsrc)` and the
vmapped `assemble_boundary_data` returns the next level's `h` of shape
`(nnodes//4, 8*(nbdry//4), nsrc) = (nnodes//4, 2*nbdry, nsrc)`. -/

/-- The one failure mode the shape semantics tracks. -/
inductive UpPassShapeErr where
  | unpack3Failed
deriving DecidableEq

/-- Shape of the stage's returned `h` array: the full vmapped `h` has
shape `(n_leaves, 4q, nsrc)` and the `[..., 0]` slice drops the last
axis. -/
def local_solve_h_shape (n_leaves q nsrc : ℕ) : List ℕ :=
  ([n_leaves, 4*q, nsrc]).dropLast

/-- Shape-level model of the upward-pass level loop: one iteration per
entry of `D_inv_lst`; each iteration unpacks `h_in.shape` into
`(nnodes, nbdry, nsrc)` (a `ValueError` unless `h_in` is rank 3) and
produces the next level's `h` of shape `(nnodes/4, 2*nbdry, nsrc)`.
Returns the list of per-level `g_tilde`/`h` shapes on success. -/
def up_pass_loop_shapes : ℕ → List ℕ → Except UpPassShapeErr (List (List ℕ))
  | 0, _ => .ok []
  | k+1, hshape =>
    match hshape with
    | [nnodes, nbdry, nsrc] =>
      match up_pass_loop_shapes k [nnodes / 4, 2*nbdry, nsrc] with
      | .ok rest => .ok ([nnodes / 4, 2*nbdry, nsrc] :: rest)
      | .error e => .error e
    | _ => .error .unpack3Failed

/-- Shape-level model of `up_pass_uniform_2D_ItI` after the source has
been stored: run the local solve stage (whose `h` output lost its source
axis to the `[..., 0]` slice) and then the level loop, with
`n_levels = len(D_inv_lst)`. -/
def up_pass_uniform_2D_ItI_shapes (n_leaves q nsrc n_levels : ℕ) :
    Except UpPassShapeErr (List (List ℕ)) :=
  up_pass_loop_shapes n_levels (local_solve_h_shape n_leaves q nsrc)

/-! ### Chunk arithmetic of the fused 2D controller
(`_fused_local_solve_and_build_2D` and `_fused_local_solve_and_build_2D_ItI`
in `hps/src/methods/fused_methods.py`): `n_chunks = n_leaves // chunksize`
and chunk `i` covers leaf indices
`[i*chunksize, min((i+1)*chunksize, n_leaves))`.

The chunk size itself comes from `get_fused_chunksize_2D`
(`hps/src/config.py`), which is not part of the sources here; following
the specification ("chunk size must evenly divide leaf count"), the
chooser is modelled as returning a positive divisor of `n_leaves`, and
that is taken as a hypothesis of the claim. -/

/-- Chunk bounds used by the fused controllers:
`(chunk_start_idx, chunk_end_idx) = (i*chunksize, min((i+1)*chunksize, n_leaves))`. -/
def chunk_bounds (n_leaves chunksize i : ℕ) : ℕ × ℕ :=
  (i * chunksize, min ((i+1) * chunksize) n_leaves)

/-- Number of chunk iterations: `n_chunks = n_leaves // chunksize`. -/
def n_chunks (n_leaves chunksize : ℕ) : ℕ := n_leaves / chunksize

/-- Claim C6's coverage property: every leaf index below `n_leaves` lies in
the half-open range of exactly one executed chunk. -/
def chunk_coverage (n_leaves chunksize : ℕ) : Prop :=
  ∀ j < n_leaves, ∃! i,
    i < n_chunks n_leaves chunksize ∧
    (chunk_bounds n_leaves chunksize i).1 ≤ j ∧
    j < (chunk_bounds n_leaves chunksize i).2

/-! ### Root-level build_solver output shapes (claim C7).

`build_solver` and the merge stages it calls are not among the sources;
the repository pins their observable output shapes in
`tests/test_solve.py`: `len(S_lst) == L`, `len(g_tilde_lst) == L`, and the
root-level entry `S_lst[-1]` has shape `(1, n_bdry//2, n_bdry)` for 2D
DtN, `(1, n_bdry, n_bdry)` for 2D ItI, and `(n_bdry//2, n_bdry)` (rank 2,
no leading singleton) for 3D DtN.  Modelled from the spec and from these
test assertions: what is missing from the sources is the builder itself;
the shapes below transcribe the test oracle. -/

/-- The three uniform solver modes exercised by `tests/test_solve.py`. -/
inductive SolverMode where
  | dtn2D
  | iti2D
  | dtn3D
deriving DecidableEq

/-- Number of entries of `pde_problem.S_lst` after `build_solver` on a
uniform depth-`L` tree (one entry per merge level). -/
def build_S_lst_len (L : ℕ) : ℕ := L

/-- Number of entries of `pde_problem.g_tilde_lst` after `build_solver`. -/
def build_g_tilde_lst_len (L : ℕ) : ℕ := L

/-- Shape of the final (root-level) entry `S_lst[-1]`. -/
def root_S_shape (m : SolverMode) (n_root_bdry : ℕ) : List ℕ :=
  match m with
  | .dtn2D => [1, n_root_bdry / 2, n_root_bdry]
  | .iti2D => [1, n_root_bdry, n_root_bdry]
  | .dtn3D => [n_root_bdry / 2, n_root_bdry]

/-! ### Claim properties (statement bodies reused by theorems and witnesses) -/

/-- Claim C1's property of the value returned by `get_DtN`: the factor
`matInv A_ii` appearing in the outputs is a genuine two-sided inverse of
the interior-interior block, `Y = L·P` with `L = [I; −A_ii⁻¹·A_ie]`,
`T = Q·Y`, the particular solution vanishes on the boundary Chebyshev
nodes and solves `A_ii · v_int = source_int` on the interior nodes, and
`h = Q·v`. -/
def DtN_claim_prop (nb ni g : ℕ) (source : CN nb ni → ℚ)
    (A : Matrix (CN nb ni) (CN nb ni) ℚ)
    (Q : Matrix (Fin g) (CN nb ni) ℚ)
    (P : Matrix (Fin nb) (Fin g) ℚ) : Prop :=
  A.toBlocks₂₂ * matInv A.toBlocks₂₂ = 1 ∧
  matInv A.toBlocks₂₂ * A.toBlocks₂₂ = 1 ∧
  (get_DtN nb ni g source A Q P).Y =
    Matrix.fromRows (1 : Matrix (Fin nb) (Fin nb) ℚ)
      (-(matInv A.toBlocks₂₂ * A.toBlocks₂₁)) * P ∧
  (get_DtN nb ni g source A Q P).T = Q * (get_DtN nb ni g source A Q P).Y ∧
  (∀ jb : Fin nb, (get_DtN nb ni g source A Q P).v (Sum.inl jb) = 0) ∧
  A.toBlocks₂₂.mulVec (fun j => (get_DtN nb ni g source A Q P).v (Sum.inr j)) =
    (fun j => source (Sum.inr j)) ∧
  (get_DtN nb ni g source A Q P).h = Q.mulVec (get_DtN nb ni g source A Q P).v

/-- Concrete diagonal leaf operator for the C1 witness. -/
def c1A : Matrix (CN 1 1) (CN 1 1) ℚ := Matrix.fromBlocks 1 0 0 1

/-- Claim C9's property of `local_solve_stage_uniform_2D_ItI`: the
returned `v` and `h` are exactly column 0 (the first source) of the full
per-leaf `get_ItI` outputs, and they do not change when the remaining
source columns change. -/
def ItI_stage_first_source_prop (nb ni g : ℕ)
    (A : ℕ → Matrix (CN nb ni) (CN nb ni) ℚ)
    (s₁ s₂ : ℕ → Matrix (CN nb ni) ℕ ℚ)
    (P : Matrix (Fin nb) (Fin g) ℚ)
    (QH : Matrix (Fin g) (CN nb ni) ℚ)
    (G : Matrix (Fin nb) (CN nb ni) ℚ) : Prop :=
  (∀ l x, (local_solve_stage_uniform_2D_ItI nb ni g A s₁ P QH G).v l x =
      (get_ItI nb ni g (A l) (s₁ l) P QH G).v x 0) ∧
  (∀ l x, (local_solve_stage_uniform_2D_ItI nb ni g A s₁ P QH G).h l x =
      (get_ItI nb ni g (A l) (s₁ l) P QH G).h x 0) ∧
  (local_solve_stage_uniform_2D_ItI nb ni g A s₁ P QH G).v =
    (local_solve_stage_uniform_2D_ItI nb ni g A s₂ P QH G).v ∧
  (local_solve_stage_uniform_2D_ItI nb ni g A s₁ P QH G).h =
    (local_solve_stage_uniform_2D_ItI nb ni g A s₂ P QH G).h

/-- Concrete sources for the C9 witness: both agree on source 0, differ on
every later source. -/
def c9src₁ : ℕ → Matrix (CN 1 1) ℕ ℚ := fun _ => Matrix.of fun _ _ => 0

/-- Second concrete source batch for the C9 witness. -/
def c9src₂ : ℕ → Matrix (CN 1 1) ℕ ℚ :=
  fun _ => Matrix.of fun _ s => if s = 0 then 0 else 1

/-- Claim C10's property: the reindexing vector is a permutation of
`{0, …, 8·nside − 1}`, so all entries are in range and pairwise
distinct. -/
def rPerm_prop (ns : ℕ) : Prop :=
  (rList ns).Perm (List.range (8*ns)) ∧
  (∀ x ∈ rList ns, x < 8*ns) ∧
  (rList ns).Nodup

/-! ### Theorems for the claims -/

/-- Claim C8: `up_pass_uniform_2D_ItI` overwrites `pde_problem.source`
with the supplied source (given a trailing singleton source axis when the
input is 2-dimensional), independently of the previously stored source,
while `S_lst`, `D_inv_lst` and `BD_inv_lst` are left unchanged. -/
theorem claim_C8 {K α : Type} (source : SourceArr K)
    (prob : PDEProblemState K α) :
    (up_pass_store_source source prob).S_lst = prob.S_lst ∧
    (up_pass_store_source source prob).D_inv_lst = prob.D_inv_lst ∧
    (up_pass_store_source source prob).BD_inv_lst = prob.BD_inv_lst ∧
    (up_pass_store_source source prob).source =
      (if source.ndim = 3 then source else source.expandDimsLast) ∧
    (∀ s₀ : SourceArr K,
      up_pass_store_source source { prob with source := s₀ } =
        up_pass_store_source source prob) :=
  ⟨rfl, rfl, rfl, rfl, fun _ => rfl⟩

/-- Claim C2 (refuting evaluation): on a depth-1 uniform 2D ItI problem
with 4 leaves, Gauss order `q = 4` and a single source, the upward pass
fails with a rank-mismatch `ValueError`: the local solve stage has
stripped the trailing source axis from `h`, so the level loop's
`nnodes, nbdry, nsrc = h_in.shape` cannot unpack.  The two-phase
build-then-solve workflow therefore cannot reproduce the one-phase
outputs, contrary to the claim and to the repository's own tests. -/
theorem claim_C2_shape_error :
    up_pass_uniform_2D_ItI_shapes 4 4 1 1 = .error .unpack3Failed := rfl

/-- Claim C3 counterexample: at `nside = 1`, with child `a` carrying a
single 1 on its interior-facing segment, `D_inv = 0` and `BD_inv = I`,
the `h` returned by `assemble_boundary_data` differs from the claim's
formula (exterior data corrected by `BD_inv` applied to the
interior-interface data): the code applies `BD_inv` to the exterior data
instead. -/
theorem claim_C3_counterexample :
    (assemble_boundary_data 1 c3_h_in zeroMatF idMatF).1 3 ≠
      claimed_h_C3 1 c3_h_in idMatF 3 := by
  norm_num [assemble_boundary_data, claimed_h_C3, h_ext_child, h_int_child,
    matVec, c3_h_in, idMatF, zeroMatF, concat4, concat8,
    Finset.sum_range_succ]

/-- Claim C3 amended: `g_tilde` is `−D_inv` applied to the children's
interior-interface particular data, reordered by the reindexing vector
`r`; and `h` is the children's exterior particular data minus `BD_inv`
applied to that same *exterior* data, rolled by `nside` into canonical
bottom/left/right/top order. -/
theorem claim_C3_amended (ns : ℕ) (h_in : ℕ → Vec) (D_inv BD_inv : MatF) :
    (assemble_boundary_data ns h_in D_inv BD_inv).2 =
      (fun a => -(matVec (8*ns) D_inv (h_int_child ns h_in)
        ((rList ns).getD a 0))) ∧
    (assemble_boundary_data ns h_in D_inv BD_inv).1 =
      (fun a => h_ext_child ns h_in ((a + ns) % (8*ns)) -
        matVec (8*ns) BD_inv (h_ext_child ns h_in) ((a + ns) % (8*ns))) :=
  ⟨rfl, rfl⟩

/-- Claim C4 counterexample: a 2D *non-uniform* ItI problem with a
runtime source is not rejected — `solve` proceeds to
`_up_then_down_pass`, so the claimed `ValueError` for every non-(2D
uniform ItI) problem does not hold. -/
theorem claim_C4_counterexample :
    solve_dispatch ⟨true, false, true⟩ true = SolveDispatch.upThenDown ∧
    solve_dispatch ⟨true, false, true⟩ true ≠ SolveDispatch.configError := by
  decide

/-- Claim C4 amended: with a non-`None` source, `solve` raises the
configuration `ValueError` (before any down-pass or up-pass work) exactly
when the problem is not 2D or not ItI; the uniformity flag is not
consulted on this path. -/
theorem claim_C4_amended (f : SolveFlags) :
    solve_dispatch f true = SolveDispatch.configError ↔
      (f.bool_2D = false ∨ f.use_ItI = false) := by
  obtain ⟨b2, bu, bi⟩ := f
  cases b2 <;> cases bu <;> cases bi <;> decide

/-- Claim C7 counterexample: in 3D DtN mode the root-level S-map entry is
rank 2 — `(n_root_bdry/2, n_root_bdry)` with no leading singleton — so
the claimed shape `(1, n_root_bdry/2, n_root_bdry)` fails (here at the
`p = 6, q = 4, L = 2` root boundary count 1536 used by the tests). -/
theorem claim_C7_counterexample :
    root_S_shape SolverMode.dtn3D 1536 ≠ [1, 1536 / 2, 1536] := by
  decide

/-- Claim C7 amended: `S_lst` and `g_tilde_lst` have exactly `L` entries,
and the root-level S-map entry has shape `(1, n/2, n)` for 2D DtN,
`(1, n, n)` for 2D ItI, and `(n/2, n)` for 3D DtN. -/
theorem claim_C7_amended (L n : ℕ) :
    build_S_lst_len L = L ∧ build_g_tilde_lst_len L = L ∧
    root_S_shape SolverMode.dtn2D n = [1, n / 2, n] ∧
    root_S_shape SolverMode.iti2D n = [1, n, n] ∧
    root_S_shape SolverMode.dtn3D n = [n / 2, n] :=
  ⟨rfl, rfl, rfl, rfl, rfl⟩

/-- Helper for claim C5: replacing an absent (`none`) coefficient entry by
an explicit all-zero coefficient array leaves the assembly loop's result
unchanged, for any accumulator and any stack of differential operators. -/
theorem add_or_not_loop_none_eq_some_zero (l₂ : List (Option Vec)) :
    ∀ (l₁ : List (Option Vec)) (ops : List MatF) (out : MatF),
    add_or_not_loop ((l₁ ++ none :: l₂).map Option.isSome) ops
        ((l₁ ++ none :: l₂).filterMap id) out =
      add_or_not_loop ((l₁ ++ some zeroVec :: l₂).map Option.isSome) ops
        ((l₁ ++ some zeroVec :: l₂).filterMap id) out := by
  intro l₁
  induction l₁ with
  | nil =>
    intro ops out
    cases ops with
    | nil => rfl
    | cons op ops' =>
      show add_or_not_loop (false :: l₂.map Option.isSome) (op :: ops')
          (List.filterMap id l₂) out =
        add_or_not_loop (true :: l₂.map Option.isSome) (op :: ops')
          (zeroVec :: List.filterMap id l₂) out
      have hout : (fun a b => out a b +
          scale_rows (zeroVec :: List.filterMap id l₂).headI op a b) = out := by
        funext a b
        simp [scale_rows, zeroVec]
      simp only [add_or_not_loop, Bool.false_eq_true, eq_self_iff_true,
        if_true, if_false, List.tail_cons, hout]
  | cons o l₁' ih =>
    intro ops out
    cases o with
    | some c =>
      cases ops with
      | nil => rfl
      | cons op ops' =>
        show add_or_not_loop (true :: ((l₁' ++ none :: l₂).map Option.isSome))
            (op :: ops') (c :: (l₁' ++ none :: l₂).filterMap id) out =
          add_or_not_loop
            (true :: ((l₁' ++ some zeroVec :: l₂).map Option.isSome))
            (op :: ops') (c :: (l₁' ++ some zeroVec :: l₂).filterMap id) out
        simp only [add_or_not_loop, eq_self_iff_true, if_true, List.tail_cons,
          List.headI_cons]
        exact ih ops' _
    | none =>
      cases ops with
      | nil => rfl
      | cons op ops' =>
        show add_or_not_loop (false :: ((l₁' ++ none :: l₂).map Option.isSome))
            (op :: ops') ((l₁' ++ none :: l₂).filterMap id) out =
          add_or_not_loop
            (false :: ((l₁' ++ some zeroVec :: l₂).map Option.isSome))
            (op :: ops') ((l₁' ++ some zeroVec :: l₂).filterMap id) out
        simp only [add_or_not_loop, Bool.false_eq_true, if_false]
        exact ih ops' out

/-- Claim C5: assembling the leaf differential operator with one
coefficient term entirely absent (skipped by the gather, no scaled matrix
contributed) gives exactly the same operator matrix as assembling with
that term present as an all-zero coefficient array.  The absent term may
sit at any position `l₁.length` of the option list — in particular at each
of the six 2D positions `D_xx, D_xy, D_yy, D_x, D_y, I`. -/
theorem claim_C5 (l₁ l₂ : List (Option Vec)) (ops : List MatF) :
    assemble_from_coeff_options (l₁ ++ none :: l₂) ops =
      assemble_from_coeff_options (l₁ ++ some zeroVec :: l₂) ops :=
  add_or_not_loop_none_eq_some_zero l₂ l₁ ops _

/-- Helper for claim C10: gluing two adjacent `arange` blocks. -/
theorem range'_block_append (ns a b : ℕ) :
    List.range' (a*ns) ns ++ List.range' ((a+1)*ns) b =
      List.range' (a*ns) (ns + b) := by
  have h := List.range'_append_1 (a*ns) ns b
  rw [show a*ns + ns = (a+1)*ns from by ring] at h
  rw [Nat.add_comm b ns] at h
  exact h

/-- Helper for claim C10: `range (8*ns)` splits into the eight consecutive
`arange` blocks of length `ns`. -/
theorem range_eight_blocks (ns : ℕ) :
    List.range (8*ns) =
      List.range' 0 ns ++ (List.range' ns ns ++ (List.range' (2*ns) ns ++
      (List.range' (3*ns) ns ++ (List.range' (4*ns) ns ++
      (List.range' (5*ns) ns ++ (List.range' (6*ns) ns ++
      List.range' (7*ns) ns)))))) := by
  have k6 := range'_block_append ns 6 ns
  rw [show (6+1)*ns = 7*ns from by ring, show ns + ns = 2*ns from by ring] at k6
  have k5 := range'_block_append ns 5 (2*ns)
  rw [show (5+1)*ns = 6*ns from by ring,
    show ns + 2*ns = 3*ns from by ring] at k5
  have k4 := range'_block_append ns 4 (3*ns)
  rw [show (4+1)*ns = 5*ns from by ring,
    show ns + 3*ns = 4*ns from by ring] at k4
  have k3 := range'_block_append ns 3 (4*ns)
  rw [show (3+1)*ns = 4*ns from by ring,
    show ns + 4*ns = 5*ns from by ring] at k3
  have k2 := range'_block_append ns 2 (5*ns)
  rw [show (2+1)*ns = 3*ns from by ring,
    show ns + 5*ns = 6*ns from by ring] at k2
  have k1 := range'_block_append ns 1 (6*ns)
  rw [show (1+1)*ns = 2*ns from by ring, show (1:ℕ)*ns = ns from by ring,
    show ns + 6*ns = 7*ns from by ring] at k1
  have k0 := range'_block_append ns 0 (7*ns)
  rw [show (0+1)*ns = ns from by ring, show (0:ℕ)*ns = 0 from by ring,
    show ns + 7*ns = 8*ns from by ring] at k0
  rw [List.range_eq_range', k6, k5, k4, k3, k2, k1, k0]

/-- Claim C10: for `nside ≥ 1`, the reindexing vector `r` built in
`assemble_boundary_data` is a permutation of `{0, …, 8·nside − 1}`: the
reordering of `g_tilde` neither drops nor duplicates any entry. -/
theorem claim_C10 (ns : ℕ) (_hns : 1 ≤ ns) : rPerm_prop ns := by
  have hperm : (rList ns).Perm (List.range (8*ns)) := by
    rw [← Multiset.coe_eq_coe, range_eight_blocks ns]
    simp only [rList, List.append_assoc, ← Multiset.coe_add]
    abel
  refine ⟨hperm, ?_, ?_⟩
  · intro x hx
    exact List.mem_range.mp (hperm.mem_iff.mp hx)
  · exact hperm.symm.nodup (List.nodup_range _)

/-- Witness for claim C10 at `nside = 2`. -/
theorem claim_C10_witness : 1 ≤ 2 ∧ rPerm_prop 2 :=
  ⟨by decide, claim_C10 2 (by decide)⟩

/-- Claim C6: when the chosen chunk size is positive and evenly divides
the leaf count (the contract of the chunk-size chooser per the
specification), the fused controller's loop `for i in range(n_leaves //
chunksize)` with bounds `[i*chunksize, min((i+1)*chunksize, n_leaves))`
processes every leaf in exactly one chunk: none skipped, none repeated. -/
theorem claim_C6 (n cs : ℕ) (h0 : 0 < cs) (hdvd : cs ∣ n) :
    chunk_coverage n cs := by
  intro j hj
  have hmod : cs * (j / cs) + j % cs = j := Nat.div_add_mod j cs
  have hmlt : j % cs < cs := Nat.mod_lt j h0
  refine ⟨j / cs, ⟨?_, ?_, ?_⟩, ?_⟩
  · exact Nat.div_lt_div_of_lt_of_dvd hdvd hj
  · simpa [chunk_bounds] using Nat.div_mul_le_self j cs
  · have hexp : (j / cs + 1) * cs = cs * (j / cs) + cs := by ring
    simp only [chunk_bounds]
    exact lt_min (by omega) hj
  · rintro i ⟨_, hstart, hend⟩
    have h2 : j < (i+1)*cs :=
      lt_of_lt_of_le hend (min_le_left _ _)
    have hle : i ≤ j / cs := (Nat.le_div_iff_mul_le h0).mpr hstart
    have hlt : j / cs < i + 1 := (Nat.div_lt_iff_lt_mul h0).mpr h2
    omega

/-- Witness for claim C6: 16 leaves in chunks of 4. -/
theorem claim_C6_witness : 0 < 4 ∧ (4:ℕ) ∣ 16 ∧ chunk_coverage 16 4 :=
  ⟨by decide, by decide, claim_C6 16 4 (by decide) (by decide)⟩

/-- Claim C1: whenever the interior-interior block `A_ii` of the assembled
leaf operator is invertible, `get_DtN` returns `Y = L·P` with
`L = [I; −A_ii⁻¹·A_ie]` (and `matInv A_ii` really is the two-sided
inverse), the DtN matrix `T = Q·Y`, a particular solution `v` that is zero
on the boundary Chebyshev nodes and solves `A_ii · v_int = source_int` on
the interior nodes, and the particular flux `h = Q·v`. -/
theorem claim_C1 (nb ni g : ℕ) (source : CN nb ni → ℚ)
    (A : Matrix (CN nb ni) (CN nb ni) ℚ)
    (Q : Matrix (Fin g) (CN nb ni) ℚ)
    (P : Matrix (Fin nb) (Fin g) ℚ)
    (hdet : IsUnit (A.toBlocks₂₂).det) :
    DtN_claim_prop nb ni g source A Q P := by
  have hne : (A.toBlocks₂₂).det ≠ 0 := by
    simpa [isUnit_iff_ne_zero] using hdet
  have h1 : A.toBlocks₂₂ * matInv A.toBlocks₂₂ = 1 := by
    unfold matInv
    rw [Matrix.mul_smul, Matrix.mul_adjugate, smul_smul,
      inv_mul_cancel₀ hne, one_smul]
  have h2 : matInv A.toBlocks₂₂ * A.toBlocks₂₂ = 1 := by
    unfold matInv
    rw [Matrix.smul_mul, Matrix.adjugate_mul, smul_smul,
      inv_mul_cancel₀ hne, one_smul]
  refine ⟨h1, h2, rfl, rfl, fun jb => rfl, ?_, rfl⟩
  have hv : (fun j => (get_DtN nb ni g source A Q P).v (Sum.inr j)) =
      (matInv A.toBlocks₂₂).mulVec (fun j => source (Sum.inr j)) := rfl
  rw [hv, Matrix.mulVec_mulVec, h1, Matrix.one_mulVec]

/-- Witness for claim C1 at the identity leaf operator. -/
theorem claim_C1_witness :
    IsUnit ((c1A.toBlocks₂₂).det) ∧
      DtN_claim_prop 1 1 1 (fun _ => 0) c1A 0 0 := by
  have hblock : c1A.toBlocks₂₂ = (1 : Matrix (Fin 1) (Fin 1) ℚ) :=
    Matrix.toBlocks_fromBlocks₂₂ 1 0 0 1
  have h : IsUnit ((c1A.toBlocks₂₂).det) := by
    rw [hblock, Matrix.det_one]
    exact isUnit_one
  exact ⟨h, claim_C1 1 1 1 (fun _ => 0) c1A 0 0 h⟩

/-- Claim C9: the `v` and `h` returned by
`local_solve_stage_uniform_2D_ItI` are exactly the first-source column
(trailing index 0) of the full per-leaf `get_ItI` outputs, and any two
source batches that agree on source 0 produce identical `v` and `h` — the
remaining sources are silently discarded from these two outputs. -/
theorem claim_C9 (nb ni g : ℕ)
    (A : ℕ → Matrix (CN nb ni) (CN nb ni) ℚ)
    (s₁ s₂ : ℕ → Matrix (CN nb ni) ℕ ℚ)
    (P : Matrix (Fin nb) (Fin g) ℚ)
    (QH : Matrix (Fin g) (CN nb ni) ℚ)
    (G : Matrix (Fin nb) (CN nb ni) ℚ)
    (hagree : ∀ l x, s₁ l x 0 = s₂ l x 0) :
    ItI_stage_first_source_prop nb ni g A s₁ s₂ P QH G := by
  have hv : ∀ l x, (get_ItI nb ni g (A l) (s₁ l) P QH G).v x 0 =
      (get_ItI nb ni g (A l) (s₂ l) P QH G).v x 0 := by
    intro l x
    show ((matInv (Matrix.fromRows G ((A l).submatrix Sum.inr id))).submatrix
        id Sum.inr * (s₁ l).submatrix Sum.inr id) x 0 =
      ((matInv (Matrix.fromRows G ((A l).submatrix Sum.inr id))).submatrix
        id Sum.inr * (s₂ l).submatrix Sum.inr id) x 0
    rw [Matrix.mul_apply, Matrix.mul_apply]
    refine Finset.sum_congr rfl fun j _ => ?_
    have := hagree l (Sum.inr j)
    simp only [Matrix.submatrix_apply, id_eq]
    rw [this]
  have hh : ∀ l x, (get_ItI nb ni g (A l) (s₁ l) P QH G).h x 0 =
      (get_ItI nb ni g (A l) (s₂ l) P QH G).h x 0 := by
    intro l x
    show (QH * (get_ItI nb ni g (A l) (s₁ l) P QH G).v) x 0 =
      (QH * (get_ItI nb ni g (A l) (s₂ l) P QH G).v) x 0
    rw [Matrix.mul_apply, Matrix.mul_apply]
    exact Finset.sum_congr rfl fun y _ => by rw [hv l y]
  refine ⟨fun l x => rfl, fun l x => rfl, ?_, ?_⟩
  · funext l x
    exact hv l x
  · funext l x
    exact hh l x

/-- Witness for claim C9: two concrete source batches agreeing on source
0 and differing on every later source. -/
theorem claim_C9_witness :
    (∀ l x, c9src₁ l x 0 = c9src₂ l x 0) ∧
      ItI_stage_first_source_prop 1 1 1 (fun _ => 1) c9src₁ c9src₂ 0 0 0 := by
  have h : ∀ (l : ℕ) (x : CN 1 1), c9src₁ l x 0 = c9src₂ l x 0 :=
    fun l x => rfl
  exact ⟨h, claim_C9 1 1 1 (fun _ => 1) c9src₁ c9src₂ 0 0 0 h⟩
